import Mathlib

/-!
Verification of the tarpaulin coverage driver against its specification.

The development shallowly embeds the code of `src/lib.rs` and
`src/branching/mod.rs`.  Collaborator modules that are not part of the
visible source (`config`, `errors`, `traces`, `cargo`, the state machine)
are modelled from the specification and passed to the embedded driver
functions as explicit parameters, so every control-flow decision visible
in `src/lib.rs` is reproduced here.
-/

namespace Tarpaulin

/-! ### Branch analysis data model (src/branching/mod.rs) -/

/-- The start and end of a contiguous range of lines; the range is
contained within `start..end` (start inclusive, end exclusive). -/
structure LineRange where
  start : Nat
  «end» : Nat
deriving DecidableEq

/-- Returns true if the line is contained within the line range
(`line >= self.start && line < self.end`). -/
def LineRange.contains (r : LineRange) (line : Nat) : Bool :=
  decide (r.start ≤ line) && decide (line < r.«end»)

/-- Represents possible branches through an execution. -/
structure Branches where
  ranges : List LineRange
  implicit_default : Bool
deriving DecidableEq

/-- Coverage context for all the branches of one file: each key is a
`LineRange` for a region containing a set of branches.  The `BTreeMap` of
the source is embedded as its entry list. -/
structure BranchAnalysis where
  branches : List (LineRange × Branches)
deriving DecidableEq

/-- Returns true if the line is part of a branch
(`self.branches.iter().any(|(k, _)| k.contains(line))`). -/
def BranchAnalysis.is_branch (b : BranchAnalysis) (line : Nat) : Bool :=
  b.branches.any (fun kv => kv.1.contains line)

/-- Lookup in the file map of a `BranchContext`, embedding `HashMap::get`
on the entry list. -/
def getFile : List (String × BranchAnalysis) → String → Option BranchAnalysis
  | [], _ => none
  | f :: rest, path => if f.1 = path then some f.2 else getFile rest path

/-- Process-wide branch context: file path to branch analysis. -/
structure BranchContext where
  files : List (String × BranchAnalysis)

/-- Embeds `BranchContext::is_branch`: delegates to the file's analysis when the
path is present, otherwise false. -/
def BranchContext.is_branch (ctx : BranchContext) (path : String) (line : Nat) : Bool :=
  match getFile ctx.files path with
  | some file => file.is_branch line
  | none => false

/-! ### Trace map (modelled from the spec) -/

/-- Modelled from the spec: the `traces` module (`TraceMap`) is not under
src/.  Traces are modelled after address resolution, keyed by
`(file, line)` with a hit count; `merge(other)` sums hit counts for an
existing key and inserts traces with new keys.  `mergeOne` folds one trace
of `other` into the accumulated entry list. -/
def mergeOne : List ((String × Nat) × Nat) → (String × Nat) → Nat → List ((String × Nat) × Nat)
  | [], k, h => [(k, h)]
  | e :: rest, k, h => if e.1 = k then (e.1, e.2 + h) :: rest else e :: mergeOne rest k h

/-- Modelled from the spec: the aggregate of traces, keyed for merge
purposes by `(file, line)`. -/
structure TraceMap where
  entries : List ((String × Nat) × Nat)
deriving DecidableEq

/-- Modelled from the spec: `TraceMap::new`, the empty map. -/
def TraceMap.new : TraceMap := ⟨[]⟩

/-- Modelled from the spec: `TraceMap::merge` folds every trace of `other` into `self`. -/
def TraceMap.merge (a other : TraceMap) : TraceMap :=
  ⟨other.entries.foldl (fun acc e => mergeOne acc e.1 e.2) a.entries⟩

/-- Hit count recorded for a key (0 when the key is absent). -/
def hitsList : List ((String × Nat) × Nat) → (String × Nat) → Nat
  | [], _ => 0
  | e :: rest, k => if e.1 = k then e.2 else hitsList rest k

/-- Hit count of a key in a trace map. -/
def TraceMap.hits (m : TraceMap) (k : String × Nat) : Nat := hitsList m.entries k

/-- The key set of a trace map. -/
def TraceMap.keys (m : TraceMap) : List (String × Nat) := m.entries.map Prod.fst

/-- Total hits recorded under one key across all entries. -/
def sumKey : List ((String × Nat) × Nat) → (String × Nat) → Nat
  | [], _ => 0
  | e :: rest, k => (if e.1 = k then e.2 else 0) + sumKey rest k

/-- Modelled from the spec: `dedup` collapses the traces of each
`(file, line)` key into one logical trace whose hit count is 1 if any
contribution was hit at least once. -/
def dedupGo : List ((String × Nat) × Nat) → List (String × Nat) → List ((String × Nat) × Nat)
  | [], _ => []
  | e :: rest, seen =>
    if e.1 ∈ seen then dedupGo rest seen
    else (e.1, if 0 < e.2 + sumKey rest e.1 then 1 else 0) :: dedupGo rest (e.1 :: seen)

/-- Modelled from the spec: `TraceMap::dedup` collapses each key once. -/
def TraceMap.dedup (m : TraceMap) : TraceMap := ⟨dedupGo m.entries []⟩

/-! ### Driver data model (collaborators modelled from the spec) -/

/-- Modelled from the spec: the `errors` module is not under src/; its
error kinds are those of §7 of the specification. -/
inductive RunError where
  | TestFailed
  | TestCoverage (detail : String)
  | BuildFailure (detail : String)
deriving DecidableEq

/-- Modelled from the spec: the `config` module is not under src/; the
fields are exactly those `src/lib.rs` reads (`name`, `run_ignored`,
`verbose`, `varargs`, `root()`). -/
structure Config where
  name : String
  run_ignored : Bool
  verbose : Bool
  varargs : List String
  root : String
deriving DecidableEq

/-- Modelled from the spec: the run-type tag of a discovered test
executable (normal tests vs. other kinds). -/
inductive RunType where
  | Tests
  | Other
deriving DecidableEq

/-- Modelled from the spec: a test executable discovered by the build
collaborator, with a filesystem path and a run-type tag. -/
structure TestBinary where
  path : String
  run_type : RunType

/-- Result of `fork()` as seen by `get_test_coverage`. -/
inductive ForkResult where
  | Parent (child : Nat)
  | Child

/-! ### The driver (src/lib.rs), with collaborators as parameters -/

/-- The configuration loop of `trace`: accumulates the merged trace map,
the OR-combined return code, and the first remembered per-configuration
failure, skipping configurations named "report".  `launch` stands for
`launch_tarpaulin`. -/
def traceGo (launch : Config → Except RunError (TraceMap × Int)) :
    List Config → TraceMap → Int → Option RunError → TraceMap × Int × Option RunError
  | [], tracemap, ret, failure => (tracemap, ret, failure)
  | c :: rest, tracemap, ret, failure =>
    if c.name = "report" then traceGo launch rest tracemap ret failure
    else
      match launch c with
      | .ok (t, r) => traceGo launch rest (tracemap.merge t) (Int.lor ret r) failure
      | .error e =>
          traceGo launch rest tracemap ret
            (match failure with
             | none => some e
             | some f => some f)

/-- Embeds `trace(configs)`: runs every configuration, dedups the merged map and
returns it when the OR-combined return code is zero, `Err(TestFailed)`
otherwise.  As in the source, the remembered first failure is dropped. -/
def trace (launch : Config → Except RunError (TraceMap × Int)) (configs : List Config) :
    Except RunError TraceMap :=
  let res := traceGo launch configs TraceMap.new 0 none
  if res.2.1 = 0 then .ok res.1.dedup else .error .TestFailed

/-- The multi-configuration reporting loop of `run`: reports with every
configuration named "report", recording whether any was found.  The third
component logs each invocation of the reporting collaborator in order. -/
def reportGo (report : Config → TraceMap → Except RunError Unit) (tracemap : TraceMap) :
    List Config → Bool → List (Config × TraceMap) →
    Except RunError Unit × Bool × List (Config × TraceMap)
  | [], reported, calls => (.ok (), reported, calls)
  | c :: rest, reported, calls =>
    if c.name = "report" then
      match report c tracemap with
      | .ok _ => reportGo report tracemap rest true (calls ++ [(c, tracemap)])
      | .error e => (.error e, true, calls ++ [(c, tracemap)])
    else reportGo report tracemap rest reported calls

/-- Embeds `run(configs)`: traces all configurations, then reports.  The second
component of the result is the ordered log of calls made to the reporting
collaborator `report` (standing for `report_coverage`). -/
def run (launch : Config → Except RunError (TraceMap × Int))
    (report : Config → TraceMap → Except RunError Unit) (configs : List Config) :
    Except RunError Unit × List (Config × TraceMap) :=
  match trace launch configs with
  | .error e => (.error e, [])
  | .ok tracemap =>
    match configs with
    | [] => (.ok (), [])
    | [c] =>
      match report c tracemap with
      | .ok _ => (.ok (), [(c, tracemap)])
      | .error e => (.error e, [(c, tracemap)])
    | c0 :: c1 :: rest =>
      let r := reportGo report tracemap (c0 :: c1 :: rest) false []
      match r.1 with
      | .error e => (.error e, r.2.2)
      | .ok _ =>
        if r.2.1 then (.ok (), r.2.2)
        else
          match report c0 tracemap with
          | .ok _ => (.ok (), r.2.2 ++ [(c0, tracemap)])
          | .error e => (.error e, r.2.2 ++ [(c0, tracemap)])

/-- The executable loop of `launch_tarpaulin`: for each discovered
executable, collects its coverage (and, when `run_ignored` is set and the
executable is of run type `Tests`, a second ignored-tests pass), merging
trace maps and OR-combining return codes.  `getCov` stands for
`get_test_coverage` applied to the fixed analysis and configuration. -/
def launchGo (getCov : String → Bool → Except RunError (Option (TraceMap × Int)))
    (config : Config) :
    List TestBinary → TraceMap → Int → Except RunError (TraceMap × Int)
  | [], result, return_code => .ok (result, return_code)
  | exe :: rest, result, return_code =>
    match getCov exe.path false with
    | .error e => .error e
    | .ok coverage =>
      let p :=
        match coverage with
        | some res => (result.merge res.1, Int.lor return_code res.2)
        | none => (result, return_code)
      if config.run_ignored && (exe.run_type == RunType.Tests) then
        match getCov exe.path true with
        | .error e => .error e
        | .ok coverage2 =>
          match coverage2 with
          | some res => launchGo getCov config rest (p.1.merge res.1) (Int.lor p.2 res.2)
          | none => launchGo getCov config rest p.1 p.2
      else launchGo getCov config rest p.1 p.2

/-- Embeds `launch_tarpaulin(config)`: builds the project (`getTests`, standing
for `cargo::get_tests`), traces every discovered executable and dedups the
merged result. -/
def launch_tarpaulin (getTests : Config → Except RunError (List TestBinary))
    (getCov : String → Bool → Except RunError (Option (TraceMap × Int)))
    (config : Config) : Except RunError (TraceMap × Int) :=
  match getTests config with
  | .error e => .error e
  | .ok executables =>
    match launchGo getCov config executables TraceMap.new 0 with
    | .error e => .error e
    | .ok res => .ok (res.1.dedup, res.2)

/-- Embeds `get_test_coverage`: returns `Ok(None)` when the test path does not
exist; otherwise forks, collecting coverage in the parent (collaborator
`collect`, standing for `collect_coverage`) and returning `Ok(None)` on
the child path after the exec.  `file_exists` stands for `Path::exists`
and `fork` for the outcome of `nix::unistd::fork`. -/
def get_test_coverage (file_exists : String → Bool) (fork : Except String ForkResult)
    (collect : String → Nat → Except String (TraceMap × Int))
    (test : String) (_ignored : Bool) : Except RunError (Option (TraceMap × Int)) :=
  if !file_exists test then .ok none
  else
    match fork with
    | .ok (.Parent child) =>
      match collect test child with
      | .ok t => .ok (some t)
      | .error e => .error (.TestCoverage e)
    | .ok .Child => .ok none
    | .error err =>
      .error (.TestCoverage ("Failed to run test " ++ test ++ ", Error: " ++ err))

/-- The process-image replacement request that `execute_test` hands to
`execute`: working directory, argument vector and environment. -/
structure ExecRequest where
  cwd : String
  argv : List String
  env : List String
deriving DecidableEq

/-- Embeds `execute_test`: sets the working directory to the project root, builds
the environment from every `key=value` pair of the parent environment
(plus `RUST_BACKTRACE=1` when verbose), and the argument vector from the
executable path, the optional `--ignored` flag and the configured
varargs. -/
def execute_test (parent_env : List (String × String)) (test : String) (ignored : Bool)
    (config : Config) : ExecRequest :=
  let envars := parent_env.map (fun kv => kv.1 ++ "=" ++ kv.2)
  let argv := if ignored then [test, "--ignored"] else [test]
  let envars := if config.verbose then envars ++ ["RUST_BACKTRACE=1"] else envars
  let argv := argv ++ config.varargs
  ⟨config.root, argv, envars⟩

/-- The exit codes of the individual test processes spawned for a list of
executables, in spawn order: one per executable, plus one for the
ignored-tests pass when configured.  `rc` gives the exit code of the
process for a path and ignored flag. -/
def exeCodes (config : Config) (rc : String → Bool → Int) : List TestBinary → List Int
  | [] => []
  | exe :: rest =>
    rc exe.path false
      :: ((if config.run_ignored && (exe.run_type == RunType.Tests)
           then [rc exe.path true] else [])
          ++ exeCodes config rc rest)

/-! ### Theorems about the branching model -/

/-- Claim C4, counterexample: the empty range `LineRange{start:1, end:1}`
satisfies `start <= end`, yet `contains(start)` is false, so the boundary
line `start` is not always contained. -/
theorem lineRange_boundary_cex :
    1 ≤ 1 ∧ (LineRange.mk 1 1).contains 1 = false := by decide

/-- Claim C4 (amended): for `start <= end`, `contains(line)` holds iff
`start <= line < end`; when the range is nonempty (`start < end`) the
boundary lines `start` and `end-1` are contained and `end` is not. -/
theorem lineRange_contains_spec (r : LineRange) (line : Nat) (h : r.start ≤ r.«end») :
    (r.contains line = true ↔ r.start ≤ line ∧ line < r.«end»)
    ∧ (r.start < r.«end» →
        r.contains r.start = true
        ∧ r.contains (r.«end» - 1) = true
        ∧ r.contains r.«end» = false) := by
  constructor
  · simp [LineRange.contains]
  · intro hlt
    refine ⟨?_, ?_, ?_⟩
    · simp [LineRange.contains]
      omega
    · simp [LineRange.contains]
      omega
    · simp [LineRange.contains]

/-- Claim C4 witness: instantiation of the amended statement on the
concrete range `[2, 5)` at line `3`. -/
theorem lineRange_contains_spec_witness :
    (2 : Nat) ≤ 5
    ∧ (((LineRange.mk 2 5).contains 3 = true ↔ 2 ≤ 3 ∧ 3 < 5)
        ∧ (2 < 5 →
            (LineRange.mk 2 5).contains 2 = true
            ∧ (LineRange.mk 2 5).contains (5 - 1) = true
            ∧ (LineRange.mk 2 5).contains 5 = false)) :=
  ⟨by decide, lineRange_contains_spec (LineRange.mk 2 5) 3 (by decide)⟩

/-- Claim C5: `is_branch(l)` is true iff some registered key range of the
analysis contains `l`; in particular an analysis with no branches returns
false for every line. -/
theorem branchAnalysis_is_branch_iff (b : BranchAnalysis) (line : Nat) :
    (b.is_branch line = true ↔ ∃ p ∈ b.branches, p.1.contains line = true)
    ∧ (BranchAnalysis.mk []).is_branch line = false := by
  constructor
  · simp [BranchAnalysis.is_branch, List.any_eq_true]
  · simp [BranchAnalysis.is_branch]

/-- Key not present in the entry list means lookup fails. -/
theorem getFile_eq_none (files : List (String × BranchAnalysis)) (path : String)
    (h : path ∉ files.map Prod.fst) : getFile files path = none := by
  induction files with
  | nil => rfl
  | cons f rest ih =>
    simp only [List.map_cons, List.mem_cons] at h
    push_neg at h
    simp only [getFile]
    rw [if_neg (fun hf => h.1 hf.symm)]
    exact ih h.2

/-- Claim C9: a file path absent from the context's file mapping is never
reported as containing a branch. -/
theorem branchContext_unknown_file (ctx : BranchContext) (path : String) (line : Nat)
    (h : path ∉ ctx.files.map Prod.fst) :
    ctx.is_branch path line = false := by
  simp [BranchContext.is_branch, getFile_eq_none ctx.files path h]

/-- Claim C9 witness: a context holding only `a.rs` reports no branch for
`b.rs`. -/
theorem branchContext_unknown_file_witness :
    "b.rs" ∉ (BranchContext.mk [("a.rs", BranchAnalysis.mk [])]).files.map Prod.fst
    ∧ (BranchContext.mk [("a.rs", BranchAnalysis.mk [])]).is_branch "b.rs" 7 = false :=
  ⟨by decide, branchContext_unknown_file _ "b.rs" 7 (by decide)⟩

/-! ### Merge lemmas for the trace map -/

/-- Folding one trace into an entry list adds its hits at its key and
leaves every other key unchanged. -/
theorem hitsList_mergeOne (m : List ((String × Nat) × Nat)) (k : String × Nat) (h : Nat)
    (k' : String × Nat) :
    hitsList (mergeOne m k h) k' = hitsList m k' + (if k' = k then h else 0) := by
  induction m with
  | nil =>
    by_cases hk : k = k'
    · simp [mergeOne, hitsList, hk]
    · simp [mergeOne, hitsList, hk, Ne.symm hk]
  | cons e rest ih =>
    simp only [mergeOne]
    by_cases h1 : e.1 = k
    · rw [if_pos h1]
      by_cases h2 : e.1 = k'
      · have hk : k' = k := by rw [← h2, h1]
        simp [hitsList, h2, hk]
      · have hk : ¬ k' = k := fun hh => h2 (by rw [h1, ← hh])
        simp [hitsList, h2, hk]
    · rw [if_neg h1]
      by_cases h2 : e.1 = k'
      · have hk : ¬ k' = k := fun hh => h1 (by rw [h2, hh])
        simp [hitsList, h2, hk]
      · simp [hitsList, h2, ih]

/-- Key membership after folding one trace into an entry list. -/
theorem mem_keys_mergeOne (m : List ((String × Nat) × Nat)) (k : String × Nat) (h : Nat)
    (k' : String × Nat) :
    (k' ∈ (mergeOne m k h).map Prod.fst) ↔ (k' ∈ m.map Prod.fst ∨ k' = k) := by
  induction m with
  | nil => simp [mergeOne]
  | cons e rest ih =>
    by_cases h1 : e.1 = k
    · simp only [mergeOne, if_pos h1, List.map_cons, List.mem_cons, ih]
      constructor
      · rintro (hh | hh)
        · exact Or.inl (Or.inl hh)
        · exact Or.inl (Or.inr hh)
      · rintro ((hh | hh) | hh)
        · exact Or.inl hh
        · exact Or.inr hh
        · exact Or.inl (hh.trans h1.symm)
    · simp only [mergeOne, if_neg h1, List.map_cons, List.mem_cons, ih]
      tauto

/-- Folding one trace into an entry list preserves key uniqueness. -/
theorem nodup_mergeOne (m : List ((String × Nat) × Nat)) (k : String × Nat) (h : Nat)
    (hm : (m.map Prod.fst).Nodup) : ((mergeOne m k h).map Prod.fst).Nodup := by
  induction m with
  | nil => simp [mergeOne]
  | cons e rest ih =>
    simp only [List.map_cons, List.nodup_cons] at hm
    by_cases h1 : e.1 = k
    · simp only [mergeOne, if_pos h1, List.map_cons, List.nodup_cons]
      exact hm
    · simp only [mergeOne, if_neg h1, List.map_cons, List.nodup_cons, mem_keys_mergeOne]
      exact ⟨fun hh => hh.elim hm.1 h1, ih hm.2⟩

/-- An absent key records zero hits. -/
theorem hitsList_eq_zero_of_not_mem (m : List ((String × Nat) × Nat)) (k : String × Nat)
    (h : k ∉ m.map Prod.fst) : hitsList m k = 0 := by
  induction m with
  | nil => rfl
  | cons e rest ih =>
    simp only [List.map_cons, List.mem_cons] at h
    push_neg at h
    have hne : ¬ e.1 = k := fun hh => h.1 hh.symm
    simp only [hitsList, if_neg hne]
    exact ih h.2

/-- Hits after folding a whole duplicate-free entry list into another:
the hit counts of matching keys are summed. -/
theorem hitsList_foldl (B : List ((String × Nat) × Nat)) (A : List ((String × Nat) × Nat))
    (k : String × Nat) (hB : (B.map Prod.fst).Nodup) :
    hitsList (B.foldl (fun acc e => mergeOne acc e.1 e.2) A) k
      = hitsList A k + hitsList B k := by
  induction B generalizing A with
  | nil => simp [hitsList]
  | cons e rest ih =>
    simp only [List.map_cons, List.nodup_cons] at hB
    simp only [List.foldl_cons, ih (mergeOne A e.1 e.2) hB.2, hitsList_mergeOne]
    by_cases hk : e.1 = k
    · have hrest : hitsList rest k = 0 :=
        hitsList_eq_zero_of_not_mem rest k (fun hh => hB.1 (hk ▸ hh))
      simp [hitsList, hk, hrest]
    · have hk2 : ¬ k = e.1 := fun hh => hk hh.symm
      simp [hitsList, hk, hk2]

/-- Key membership after folding a whole entry list into another. -/
theorem mem_keys_foldl (B : List ((String × Nat) × Nat)) (A : List ((String × Nat) × Nat))
    (k : String × Nat) :
    (k ∈ (B.foldl (fun acc e => mergeOne acc e.1 e.2) A).map Prod.fst)
      ↔ (k ∈ A.map Prod.fst ∨ k ∈ B.map Prod.fst) := by
  induction B generalizing A with
  | nil => simp
  | cons e rest ih =>
    simp only [List.foldl_cons, ih (mergeOne A e.1 e.2), mem_keys_mergeOne,
      List.map_cons, List.mem_cons]
    tauto

/-- Key uniqueness of the accumulator is preserved by a whole fold. -/
theorem nodup_foldl (B : List ((String × Nat) × Nat)) (A : List ((String × Nat) × Nat))
    (hA : (A.map Prod.fst).Nodup) :
    ((B.foldl (fun acc e => mergeOne acc e.1 e.2) A).map Prod.fst).Nodup := by
  induction B generalizing A with
  | nil => exact hA
  | cons e rest ih => exact ih (mergeOne A e.1 e.2) (nodup_mergeOne A e.1 e.2 hA)

/-- Claim C6: for duplicate-free trace maps, `merge` sums hit counts on
matching keys, is commutative and associative on hit counts, and the key
set of a merge is the union of the operands' key sets. -/
theorem traceMap_merge_comm_assoc (a b c : TraceMap)
    (ha : (a.entries.map Prod.fst).Nodup) (hb : (b.entries.map Prod.fst).Nodup)
    (hc : (c.entries.map Prod.fst).Nodup) :
    (∀ k, (a.merge b).hits k = a.hits k + b.hits k)
    ∧ (∀ k, (a.merge b).hits k = (b.merge a).hits k)
    ∧ (∀ k, ((a.merge b).merge c).hits k = (a.merge (b.merge c)).hits k)
    ∧ (∀ k, k ∈ (a.merge b).keys ↔ k ∈ a.keys ∨ k ∈ b.keys) := by
  have hsum : ∀ (x y : TraceMap) (k : (String × Nat)),
      (y.entries.map Prod.fst).Nodup → (x.merge y).hits k = x.hits k + y.hits k :=
    fun x y k hy => hitsList_foldl y.entries x.entries k hy
  have hbc : ((b.merge c).entries.map Prod.fst).Nodup := nodup_foldl c.entries b.entries hb
  refine ⟨fun k => hsum a b k hb, fun k => ?_, fun k => ?_, fun k => ?_⟩
  · rw [hsum a b k hb, hsum b a k ha, Nat.add_comm]
  · rw [hsum (a.merge b) c k hc, hsum a b k hb, hsum a (b.merge c) k hbc,
      hsum b c k hc, Nat.add_assoc]
  · exact mem_keys_foldl b.entries a.entries k

/-- Claim C6 witness: instantiation on three concrete duplicate-free
trace maps. -/
theorem traceMap_merge_comm_assoc_witness :
    ((TraceMap.mk [(("f.rs", 1), 2)]).entries.map Prod.fst).Nodup
    ∧ ((TraceMap.mk [(("f.rs", 1), 3), (("g.rs", 2), 1)]).entries.map Prod.fst).Nodup
    ∧ ((TraceMap.mk [(("g.rs", 2), 5)]).entries.map Prod.fst).Nodup
    ∧ ((∀ k, ((TraceMap.mk [(("f.rs", 1), 2)]).merge
            (TraceMap.mk [(("f.rs", 1), 3), (("g.rs", 2), 1)])).hits k
          = (TraceMap.mk [(("f.rs", 1), 2)]).hits k
            + (TraceMap.mk [(("f.rs", 1), 3), (("g.rs", 2), 1)]).hits k)
      ∧ (∀ k, ((TraceMap.mk [(("f.rs", 1), 2)]).merge
            (TraceMap.mk [(("f.rs", 1), 3), (("g.rs", 2), 1)])).hits k
          = ((TraceMap.mk [(("f.rs", 1), 3), (("g.rs", 2), 1)]).merge
            (TraceMap.mk [(("f.rs", 1), 2)])).hits k)
      ∧ (∀ k, (((TraceMap.mk [(("f.rs", 1), 2)]).merge
            (TraceMap.mk [(("f.rs", 1), 3), (("g.rs", 2), 1)])).merge
            (TraceMap.mk [(("g.rs", 2), 5)])).hits k
          = ((TraceMap.mk [(("f.rs", 1), 2)]).merge
            ((TraceMap.mk [(("f.rs", 1), 3), (("g.rs", 2), 1)]).merge
            (TraceMap.mk [(("g.rs", 2), 5)]))).hits k)
      ∧ (∀ k, k ∈ ((TraceMap.mk [(("f.rs", 1), 2)]).merge
            (TraceMap.mk [(("f.rs", 1), 3), (("g.rs", 2), 1)])).keys
          ↔ k ∈ (TraceMap.mk [(("f.rs", 1), 2)]).keys
            ∨ k ∈ (TraceMap.mk [(("f.rs", 1), 3), (("g.rs", 2), 1)]).keys)) :=
  ⟨by decide, by decide, by decide,
    traceMap_merge_comm_assoc _ _ _ (by decide) (by decide) (by decide)⟩

/-! ### Bitwise-OR combination of exit codes -/

/-- A bitwise OR of naturals is zero exactly when both operands are. -/
theorem nat_lor_eq_zero_iff (m n : Nat) : m ||| n = 0 ↔ m = 0 ∧ n = 0 := by
  constructor
  · intro h
    constructor
    · apply Nat.eq_of_testBit_eq
      intro i
      have hb := congrArg (fun x => Nat.testBit x i) h
      simp only [Nat.testBit_lor, Nat.zero_testBit, Bool.or_eq_false_iff] at hb
      simp [hb.1, Nat.zero_testBit]
    · apply Nat.eq_of_testBit_eq
      intro i
      have hb := congrArg (fun x => Nat.testBit x i) h
      simp only [Nat.testBit_lor, Nat.zero_testBit, Bool.or_eq_false_iff] at hb
      simp [hb.2, Nat.zero_testBit]
  · rintro ⟨rfl, rfl⟩
    rfl

/-- A bitwise OR of integers is zero exactly when both operands are. -/
theorem int_lor_eq_zero_iff (a b : Int) : Int.lor a b = 0 ↔ a = 0 ∧ b = 0 := by
  cases a with
  | ofNat m =>
    cases b with
    | ofNat n =>
      simp only [Int.lor]
      constructor
      · intro h
        have h2 : m ||| n = 0 := Int.ofNat_eq_zero.mp h
        have h3 := (nat_lor_eq_zero_iff m n).mp h2
        exact ⟨Int.ofNat_eq_zero.mpr h3.1, Int.ofNat_eq_zero.mpr h3.2⟩
      · rintro ⟨h1, h2⟩
        have hm : m = 0 := Int.ofNat_eq_zero.mp h1
        have hn : n = 0 := Int.ofNat_eq_zero.mp h2
        subst hm
        subst hn
        rfl
    | negSucc n => simp [Int.lor]
  | negSucc m => cases b <;> simp [Int.lor]

/-- Folding `Int.lor` over a list yields zero exactly when the initial
value and all elements are zero. -/
theorem foldl_lor_eq_zero_iff (l : List Int) (init : Int) :
    l.foldl Int.lor init = 0 ↔ init = 0 ∧ ∀ x ∈ l, x = 0 := by
  induction l generalizing init with
  | nil => simp
  | cons a t ih =>
    simp only [List.foldl_cons, ih, int_lor_eq_zero_iff, List.mem_cons]
    constructor
    · rintro ⟨⟨h1, h2⟩, h3⟩
      exact ⟨h1, fun x hx => hx.elim (fun hh => hh ▸ h2) (h3 x)⟩
    · rintro ⟨h1, h2⟩
      exact ⟨⟨h1, h2 a (Or.inl rfl)⟩, fun x hx => h2 x (Or.inr hx)⟩

/-! ### Exit-code accumulation in the driver -/

/-- When every configuration launches successfully, the return code
accumulated by the configuration loop is the fold of `Int.lor` over the
codes of the non-report configurations. -/
theorem traceGo_ret (t : Config → TraceMap) (r : Config → Int) (configs : List Config)
    (tm : TraceMap) (ret : Int) (failure : Option RunError) :
    (traceGo (fun c => .ok (t c, r c)) configs tm ret failure).2.1
      = ((configs.filter (fun c => ¬ c.name = "report")).map r).foldl Int.lor ret := by
  induction configs generalizing tm ret failure with
  | nil => rfl
  | cons c rest ih =>
    by_cases h : c.name = "report"
    · simp [traceGo, h, ih]
    · simp [traceGo, h, ih]

/-- Lemma: `trace` fails exactly when the accumulated return code is non-zero
(and then the failure is `TestFailed`). -/
theorem trace_eq_error_iff (launch : Config → Except RunError (TraceMap × Int))
    (configs : List Config) :
    trace launch configs = .error .TestFailed
      ↔ ¬ (traceGo launch configs TraceMap.new 0 none).2.1 = 0 := by
  unfold trace
  by_cases h : (traceGo launch configs TraceMap.new 0 none).2.1 = 0 <;> simp [h]

/-- When every spawned test process yields coverage, the executable loop
of `launch_tarpaulin` returns the fold of `Int.lor` over the individual
exit codes, in spawn order. -/
theorem launchGo_ret (tc : String → Bool → TraceMap) (rc : String → Bool → Int)
    (config : Config) (exes : List TestBinary) (acc : TraceMap) (code : Int) :
    ∃ tmOut, launchGo (fun p ig => .ok (some (tc p ig, rc p ig))) config exes acc code
      = .ok (tmOut, (exeCodes config rc exes).foldl Int.lor code) := by
  induction exes generalizing acc code with
  | nil => exact ⟨acc, rfl⟩
  | cons exe rest ih =>
    by_cases hig : (config.run_ignored && (exe.run_type == RunType.Tests)) = true
    · simpa [launchGo, exeCodes, hig] using
        ih (TraceMap.merge (acc.merge (tc exe.path false)) (tc exe.path true))
          (Int.lor (Int.lor code (rc exe.path false)) (rc exe.path true))
    · simpa [launchGo, exeCodes, hig] using
        ih (acc.merge (tc exe.path false)) (Int.lor code (rc exe.path false))

/-- Claim C3: with every test executable actually traced, the combined
exit code is the bitwise OR of the individual exit codes — across the
executables inside `launch_tarpaulin` and across configurations inside
`trace` — and `trace` reports `Err(TestFailed)` iff that OR-combined code
is non-zero, iff some instrumented test process exited non-zero. -/
theorem exit_codes_or_combined (tc : String → Bool → TraceMap) (rc : String → Bool → Int)
    (exes : List TestBinary) (config : Config)
    (t : Config → TraceMap) (r : Config → Int) (configs : List Config) :
    (∃ tmOut,
      launch_tarpaulin (fun _ => .ok exes) (fun p ig => .ok (some (tc p ig, rc p ig))) config
        = .ok (tmOut, (exeCodes config rc exes).foldl Int.lor 0))
    ∧ ((traceGo (fun c => .ok (t c, r c)) configs TraceMap.new 0 none).2.1
        = ((configs.filter (fun c => ¬ c.name = "report")).map r).foldl Int.lor 0)
    ∧ (trace (fun c => .ok (t c, r c)) configs = .error .TestFailed
        ↔ ¬ ((configs.filter (fun c => ¬ c.name = "report")).map r).foldl Int.lor 0 = 0)
    ∧ (¬ ((configs.filter (fun c => ¬ c.name = "report")).map r).foldl Int.lor 0 = 0
        ↔ ∃ x ∈ (configs.filter (fun c => ¬ c.name = "report")).map r, ¬ x = 0) := by
  refine ⟨?_, traceGo_ret t r configs TraceMap.new 0 none, ?_, ?_⟩
  · obtain ⟨tmOut, hout⟩ := launchGo_ret tc rc config exes TraceMap.new 0
    exact ⟨tmOut.dedup, by simp [launch_tarpaulin, hout]⟩
  · rw [trace_eq_error_iff, traceGo_ret]
  · rw [foldl_lor_eq_zero_iff]
    push_neg
    constructor
    · intro hh
      exact hh rfl
    · intro hh _
      exact hh

/-! ### Failure propagation in the driver -/

/-- Claim C1, evaluation at the failing input: with a first configuration
whose launch fails and a second that succeeds, the loop of `trace`
remembers the first failure and still processes the second configuration,
but `trace` then returns `Ok` with the merged map — the remembered failure
is dropped instead of being surfaced to the caller. -/
theorem trace_drops_remembered_failure :
    (traceGo
        (fun c => if c.name = "bad"
          then .error (.TestCoverage "boom")
          else .ok (TraceMap.mk [(("f.rs", 1), 1)], 0))
        [Config.mk "bad" false false [] "/p", Config.mk "good" false false [] "/p"]
        TraceMap.new 0 none).2.2 = some (.TestCoverage "boom")
    ∧ trace
        (fun c => if c.name = "bad"
          then .error (.TestCoverage "boom")
          else .ok (TraceMap.mk [(("f.rs", 1), 1)], 0))
        [Config.mk "bad" false false [] "/p", Config.mk "good" false false [] "/p"]
      = .ok (TraceMap.mk [(("f.rs", 1), 1)]) := by
  constructor <;> rfl

/-- Claim C2, counterexample: one configuration whose single test
executable runs and exits with code 1; `run` surfaces `Err(TestFailed)`
with an empty report-call log — the reporting collaborator is never
invoked, although coverage data was collected. -/
theorem run_skips_report_on_test_failure_cex :
    run (fun _ => .ok (TraceMap.mk [(("a.rs", 3), 1)], 1)) (fun _ _ => .ok ())
        [Config.mk "cfg" false false [] "/p"]
      = (.error .TestFailed, []) := by
  rfl

/-- Claim C2 (amended): when all traced test executables run but at least
one exits non-zero, `trace` returns `Err(TestFailed)` and `run` propagates
it immediately, never invoking the reporting collaborator. -/
theorem run_test_failure_no_report (t : Config → TraceMap) (r : Config → Int)
    (report : Config → TraceMap → Except RunError Unit) (configs : List Config)
    (h : ∃ c ∈ configs, ¬ c.name = "report" ∧ ¬ r c = 0) :
    run (fun c => .ok (t c, r c)) report configs = (.error .TestFailed, []) := by
  have hret : ¬ ((configs.filter (fun c => ¬ c.name = "report")).map r).foldl Int.lor 0 = 0 := by
    rw [foldl_lor_eq_zero_iff]
    push_neg
    intro _
    obtain ⟨c, hc, hname, hr⟩ := h
    exact ⟨r c, List.mem_map_of_mem r (List.mem_filter.mpr ⟨hc, by simp [hname]⟩), hr⟩
  have htr : trace (fun c => .ok (t c, r c)) configs = .error .TestFailed := by
    rw [trace_eq_error_iff, traceGo_ret]
    exact hret
  simp [run, htr]

/-- Claim C2 witness: instantiation of the amended statement on one
concrete failing configuration. -/
theorem run_test_failure_no_report_witness :
    (∃ c ∈ [Config.mk "cfg" false false [] "/p"],
        ¬ c.name = "report" ∧ ¬ (fun _ : Config => (1 : Int)) c = 0)
    ∧ run (fun c => .ok ((fun _ : Config => TraceMap.mk []) c,
          (fun _ : Config => (1 : Int)) c))
        (fun _ _ => .ok ()) [Config.mk "cfg" false false [] "/p"]
      = (.error .TestFailed, []) :=
  ⟨⟨Config.mk "cfg" false false [] "/p", by decide⟩,
    run_test_failure_no_report (fun _ => TraceMap.mk []) (fun _ => (1 : Int))
      (fun _ _ => .ok ()) [Config.mk "cfg" false false [] "/p"]
      ⟨Config.mk "cfg" false false [] "/p", by decide⟩⟩

/-! ### Missing test executables -/

/-- Claim C10: a test path that does not exist yields `Ok(None)` whatever
the fork and collection collaborators would do — no process is forked and
no error is raised, so the executable contributes no coverage data and no
exit code. -/
theorem get_test_coverage_missing (file_exists : String → Bool)
    (fork : Except String ForkResult)
    (collect : String → Nat → Except String (TraceMap × Int))
    (test : String) (ignored : Bool) (h : file_exists test = false) :
    get_test_coverage file_exists fork collect test ignored = .ok none := by
  simp [get_test_coverage, h]

/-- Claim C10 witness: instantiation on a concrete missing path, with a
fork outcome and collection collaborator that would report errors if they
were consulted. -/
theorem get_test_coverage_missing_witness :
    (fun _ : String => false) "gone" = false
    ∧ get_test_coverage (fun _ => false) (.error "fork exploded")
        (fun _ _ => .error "collect exploded") "gone" true = .ok none :=
  ⟨rfl, get_test_coverage_missing (fun _ => false) (.error "fork exploded")
    (fun _ _ => .error "collect exploded") "gone" true rfl⟩

/-! ### The child's exec request -/

/-- Claim C8, counterexample: with a configured vararg `-v`, the argument
vector is the executable path followed by the vararg, not the executable
path alone as the claim states for an unset ignored flag. -/
theorem execute_test_varargs_cex :
    (execute_test [] "/t" false (Config.mk "" false false ["-v"] "/proj")).argv = ["/t", "-v"]
    ∧ ¬ (execute_test [] "/t" false (Config.mk "" false false ["-v"] "/proj")).argv
        = ["/t"] := by
  constructor <;> decide

/-- Claim C8 (amended): `execute_test` requests the project root as
working directory; an argument vector of the executable path, then
`--ignored` exactly when the ignored flag is set, then the configured
varargs; and an environment of every `key=value` pair of the parent's
environment with `RUST_BACKTRACE=1` appended exactly when verbose. -/
theorem execute_test_spec (parent_env : List (String × String)) (test : String)
    (ignored : Bool) (config : Config) :
    execute_test parent_env test ignored config
      = ⟨config.root,
         (if ignored then [test, "--ignored"] else [test]) ++ config.varargs,
         parent_env.map (fun kv => kv.1 ++ "=" ++ kv.2)
           ++ (if config.verbose then ["RUST_BACKTRACE=1"] else [])⟩ := by
  cases hv : config.verbose <;> cases ignored <;> simp [execute_test, hv]

/-! ### Report-only configurations -/

/-- A filter is empty exactly when no element satisfies the predicate. -/
theorem filter_isEmpty_eq_not_any {α : Type} (l : List α) (p : α → Bool) :
    (l.filter p).isEmpty = !l.any p := by
  induction l with
  | nil => rfl
  | cons a t ih =>
    by_cases h : p a = true
    · simp [List.filter_cons, h]
    · simp only [Bool.not_eq_true] at h
      simp [List.filter_cons, h, ih]

/-- The configuration loop of `trace` ignores configurations named
"report" entirely: running it on a configuration list and on that list
with the report-only passes filtered out is the same. -/
theorem traceGo_skip_report (launch : Config → Except RunError (TraceMap × Int))
    (configs : List Config) (tm : TraceMap) (ret : Int) (failure : Option RunError) :
    traceGo launch configs tm ret failure
      = traceGo launch (configs.filter (fun c => ¬ c.name = "report")) tm ret failure := by
  induction configs generalizing tm ret failure with
  | nil => rfl
  | cons c rest ih =>
    by_cases h : c.name = "report"
    · simp [traceGo, h, List.filter_cons, ih]
    · cases hl : launch c <;> simp [traceGo, h, hl, List.filter_cons, ih]

/-- With an always-successful reporting collaborator, the reporting loop
of `run` succeeds, records whether a report-only configuration was seen,
and calls the collaborator once per configuration named "report". -/
theorem reportGo_all_ok (tracemap : TraceMap) (l : List Config) (reported : Bool)
    (calls : List (Config × TraceMap)) :
    reportGo (fun _ _ => .ok ()) tracemap l reported calls
      = (.ok (), (reported || l.any (fun c => c.name = "report")),
         calls ++ (l.filter (fun c => c.name = "report")).map (fun c => (c, tracemap))) := by
  induction l generalizing reported calls with
  | nil => simp [reportGo]
  | cons c rest ih =>
    by_cases h : c.name = "report"
    · simp [reportGo, h, ih, List.filter_cons, List.any_cons]
    · simp [reportGo, h, ih, List.filter_cons, List.any_cons]

/-- Claim C7: report-only passes are skipped during coverage collection —
`trace` gives the same result with them filtered out — and, on a
successful trace over a nonempty configuration list, `run` reports the
single combined map once per configuration named "report" when one
exists, and otherwise once with the first configuration. -/
theorem report_only_configs (launch : Config → Except RunError (TraceMap × Int))
    (c0 : Config) (cs : List Config) (tm : TraceMap)
    (h : trace launch (c0 :: cs) = .ok tm) :
    (∀ configs : List Config,
        trace launch configs
          = trace launch (configs.filter (fun c => ¬ c.name = "report")))
    ∧ run launch (fun _ _ => .ok ()) (c0 :: cs)
        = (.ok (),
           if ((c0 :: cs).filter (fun c => c.name = "report")).isEmpty
           then [(c0, tm)]
           else ((c0 :: cs).filter (fun c => c.name = "report")).map
             (fun c => (c, tm))) := by
  constructor
  · intro configs
    unfold trace
    rw [traceGo_skip_report]
  · match cs with
    | [] =>
      by_cases hname : c0.name = "report" <;>
        simp [run, h, List.filter_cons, hname]
    | c1 :: rest =>
      rw [show ((c0 :: c1 :: rest).filter (fun c => c.name = "report")).isEmpty
            = !(c0 :: c1 :: rest).any (fun c => c.name = "report")
          from filter_isEmpty_eq_not_any _ _]
      by_cases hany : (c0 :: c1 :: rest).any (fun c => c.name = "report") = true
      · simp [run, h, reportGo_all_ok, hany]
      · simp only [Bool.not_eq_true] at hany
        have hall := List.any_eq_false.mp hany
        simp only [decide_eq_true_eq] at hall
        simp [run, h, reportGo_all_ok, hany]
        exact ⟨hall c0 (by simp), hall c1 (by simp), fun a ha => hall a (by simp [ha])⟩

/-- Claim C7 witness: a run over one ordinary configuration and one
report-only configuration; the report-only pass contributes nothing to
tracing, and reporting uses it. -/
theorem report_only_configs_witness :
    trace (fun _ => .ok (TraceMap.mk [(("f.rs", 1), 1)], 0))
        [Config.mk "a" false false [] "/p", Config.mk "report" false false [] "/p"]
      = .ok (TraceMap.mk [(("f.rs", 1), 1)])
    ∧ ((∀ configs : List Config,
          trace (fun _ => .ok (TraceMap.mk [(("f.rs", 1), 1)], 0)) configs
            = trace (fun _ => .ok (TraceMap.mk [(("f.rs", 1), 1)], 0))
                (configs.filter (fun c => ¬ c.name = "report")))
      ∧ run (fun _ => .ok (TraceMap.mk [(("f.rs", 1), 1)], 0)) (fun _ _ => .ok ())
          [Config.mk "a" false false [] "/p", Config.mk "report" false false [] "/p"]
        = (.ok (),
           if (([Config.mk "a" false false [] "/p",
                 Config.mk "report" false false [] "/p"]).filter
                (fun c => c.name = "report")).isEmpty
           then [(Config.mk "a" false false [] "/p", TraceMap.mk [(("f.rs", 1), 1)])]
           else (([Config.mk "a" false false [] "/p",
                 Config.mk "report" false false [] "/p"]).filter
                (fun c => c.name = "report")).map
             (fun c => (c, TraceMap.mk [(("f.rs", 1), 1)])))) :=
  ⟨by rfl,
    report_only_configs (fun _ => .ok (TraceMap.mk [(("f.rs", 1), 1)], 0))
      (Config.mk "a" false false [] "/p") [Config.mk "report" false false [] "/p"]
      (TraceMap.mk [(("f.rs", 1), 1)]) (by rfl)⟩

end Tarpaulin
